import Mathlib

/-!
Verification of the refinery C++ refinement-type library core.

The integer numeric domain of a C++ integral type `T` is modelled
parametrically by its bit width `w`: a two's complement type with
minimum `tmin w = -2^(w-1)` and maximum `tmax w = 2^(w-1) - 1`
(`w = 32` is `int`).  Machine values are `Int` together with the
representability predicate `tmin w ≤ x ∧ x ≤ tmax w`.  C++ truncating
integer division is `Int.tdiv`; the unsigned cast in `is_trivially_wide`
is arithmetic modulo `2^w` (`Int.emod`).

Exceptions of class `refinement_error` (diagnostics.hpp) are modelled by
the inductive `RefinementError`, whose two constructors mirror the two
constructor overloads of the C++ class: `violation value predName` for
`refinement_error(value, pred_name)` (predicate/refinement failures) and
`message msg` for `refinement_error(std::string)` (used by the checked
arithmetic overflow paths in interval.hpp).  Fallible C++ functions
(those that may throw) return `Except RefinementError`.
-/

deriving instance DecidableEq for Except

namespace Refinery

/-- `std::numeric_limits<T>::min()` for a `w`-bit two's complement integer. -/
def tmin (w : Nat) : Int := -(2 ^ (w - 1))

/-- `std::numeric_limits<T>::max()` for a `w`-bit two's complement integer. -/
def tmax (w : Nat) : Int := 2 ^ (w - 1) - 1

/-- A value is representable in the `w`-bit domain. -/
def representable (w : Nat) (x : Int) : Prop := tmin w ≤ x ∧ x ≤ tmax w

instance (w : Nat) (x : Int) : Decidable (representable w x) :=
  inferInstanceAs (Decidable (_ ∧ _))

/-- Clamping to the representable extremes of the `w`-bit domain
(used to state what saturating arithmetic computes). -/
def clamp (w : Nat) (x : Int) : Int := max (tmin w) (min (tmax w) x)

/-- Interval predicate `Interval<Lo, Hi>` (interval.hpp): a closed range
`[lo, hi]` whose bounds are part of the predicate's identity. -/
structure Interval where
  lo : Int
  hi : Int
deriving DecidableEq, Repr

/-- `Interval<Lo, Hi>::operator()(v)`: `v >= Lo && v <= Hi`. -/
def Interval.mem (P : Interval) (v : Int) : Bool := v ≥ P.lo && v ≤ P.hi

/-- `interval_math::detail::sat_add` (integral branch): saturating addition,
clamped to `std::numeric_limits` instead of overflowing. -/
def sat_add (w : Nat) (a b : Int) : Int :=
  if b > 0 ∧ a > tmax w - b then tmax w
  else if b < 0 ∧ a < tmin w - b then tmin w
  else a + b

/-- `interval_math::detail::sat_sub` (integral branch). -/
def sat_sub (w : Nat) (a b : Int) : Int :=
  if b < 0 ∧ a > tmax w + b then tmax w
  else if b > 0 ∧ a < tmin w + b then tmin w
  else a - b

/-- `interval_math::detail::sat_mul` (integral branch).  The C++ guards use
truncating division `/` on `T`, i.e. `Int.tdiv`. -/
def sat_mul (w : Nat) (a b : Int) : Int :=
  if a = 0 ∨ b = 0 then 0
  else if a > 0 then
    if b > 0 then
      if a > (tmax w).tdiv b then tmax w else a * b
    else
      if b < (tmin w).tdiv a then tmin w else a * b
  else
    if b > 0 then
      if a < (tmin w).tdiv b then tmin w else a * b
    else
      if a < (tmax w).tdiv b then tmax w else a * b

/-- `interval_math::detail::sat_neg` (integral branch): negation saturating
at the most-negative value. -/
def sat_neg (w : Nat) (a : Int) : Int :=
  if a = tmin w then tmax w else -a

/-- `interval_math::add_intervals`. -/
def add_intervals (w : Nat) (P1 P2 : Interval) : Interval :=
  ⟨sat_add w P1.lo P2.lo, sat_add w P1.hi P2.hi⟩

/-- `interval_math::sub_intervals`. -/
def sub_intervals (w : Nat) (P1 P2 : Interval) : Interval :=
  ⟨sat_sub w P1.lo P2.hi, sat_sub w P1.hi P2.lo⟩

/-- `interval_math::mul_intervals`: min/max of the four saturated
cross products. -/
def mul_intervals (w : Nat) (P1 P2 : Interval) : Interval :=
  let ac := sat_mul w P1.lo P2.lo
  let ad := sat_mul w P1.lo P2.hi
  let bc := sat_mul w P1.hi P2.lo
  let bd := sat_mul w P1.hi P2.hi
  ⟨min (min ac ad) (min bc bd), max (max ac ad) (max bc bd)⟩

/-- `interval_math::negate_interval`. -/
def negate_interval (w : Nat) (P : Interval) : Interval :=
  ⟨sat_neg w P.hi, sat_neg w P.lo⟩

/-- The `refinement_error` exception class (diagnostics.hpp).  `violation`
is the `refinement_error(value, pred_name)` constructor (value formatted to
a string), `message` the `refinement_error(std::string)` constructor. -/
inductive RefinementError where
  | violation (valueDesc : String) (predName : String)
  | message (msg : String)
deriving DecidableEq, Repr

/-- `detail::checked_add`: throws on overflow instead of wrapping. -/
def checked_add (w : Nat) (a b : Int) : Except RefinementError Int :=
  if b > 0 ∧ a > tmax w - b then
    .error (.message "integer overflow in addition")
  else if b < 0 ∧ a < tmin w - b then
    .error (.message "integer underflow in addition")
  else .ok (a + b)

/-- `detail::checked_sub`. -/
def checked_sub (w : Nat) (a b : Int) : Except RefinementError Int :=
  if b < 0 ∧ a > tmax w + b then
    .error (.message "integer overflow in subtraction")
  else if b > 0 ∧ a < tmin w + b then
    .error (.message "integer underflow in subtraction")
  else .ok (a - b)

/-- `detail::checked_mul`. -/
def checked_mul (w : Nat) (a b : Int) : Except RefinementError Int :=
  if a = 0 ∨ b = 0 then .ok 0
  else if a > 0 then
    if b > 0 then
      if a > (tmax w).tdiv b then
        .error (.message "integer overflow in multiplication")
      else .ok (a * b)
    else
      if b < (tmin w).tdiv a then
        .error (.message "integer underflow in multiplication")
      else .ok (a * b)
  else
    if b > 0 then
      if a < (tmin w).tdiv b then
        .error (.message "integer underflow in multiplication")
      else .ok (a * b)
    else
      if a < (tmax w).tdiv b then
        .error (.message "integer overflow in multiplication")
      else .ok (a * b)

/-- `detail::checked_neg`. -/
def checked_neg (w : Nat) (a : Int) : Except RefinementError Int :=
  if a = tmin w then .error (.message "integer overflow in negation")
  else .ok (-a)

/-- Numeric domain selector for `is_trivially_wide`: a `w`-bit integral
type or a floating-point type (whose branch ignores the bounds). -/
inductive NumDomain where
  | int (w : Nat)
  | float
deriving DecidableEq, Repr

/-- `is_trivially_wide<T, Pred>`: for integral `T`, the width is computed
in `std::make_unsigned_t<T>` (arithmetic modulo `2^w`, the casts and the
subtraction) and compared against the cast of `numeric_limits<T>::max()`
(which is `tmax w`, a value in `[0, 2^w)`); for floating-point `T` the
function returns `false` (floats never degrade). -/
def is_trivially_wide : NumDomain → Interval → Bool
  | .int w, P =>
    decide ((((P.hi % ((2 : Int) ^ w)) - (P.lo % ((2 : Int) ^ w))) % ((2 : Int) ^ w))
      ≥ tmax w)
  | .float, _ => false

/-- Result of an interval arithmetic operator: either degraded to the bare
numeric value (plain `T`) or wrapped as `Refined<T, P>` (value held with
its result interval). -/
inductive IntervalResult where
  | bare (v : Int)
  | wrapped (P : Interval) (v : Int)
deriving DecidableEq, Repr

/-- The numeric value carried by an `IntervalResult`. -/
def IntervalResult.val : IntervalResult → Int
  | .bare v => v
  | .wrapped _ v => v

/-- `detail::make_interval_result<result_pred>(raw)`: degrade to plain `T`
when the result interval is trivially wide, else wrap via `assume_valid`. -/
def make_interval_result (d : NumDomain) (P : Interval) (raw : Int) : IntervalResult :=
  if is_trivially_wide d P then .bare raw else .wrapped P raw

/-- `operator+` on interval-refined operands for an integral `T`
(interval.hpp): infer the result interval at compile time, compute the
value with `checked_add`, then wrap or degrade. -/
def addRefined (w : Nat) (P1 P2 : Interval) (x y : Int) :
    Except RefinementError IntervalResult :=
  (checked_add w x y).map (make_interval_result (.int w) (add_intervals w P1 P2))

/-- `operator-` (binary) on interval-refined operands for an integral `T`. -/
def subRefined (w : Nat) (P1 P2 : Interval) (x y : Int) :
    Except RefinementError IntervalResult :=
  (checked_sub w x y).map (make_interval_result (.int w) (sub_intervals w P1 P2))

/-- `operator*` on interval-refined operands for an integral `T`. -/
def mulRefined (w : Nat) (P1 P2 : Interval) (x y : Int) :
    Except RefinementError IntervalResult :=
  (checked_mul w x y).map (make_interval_result (.int w) (mul_intervals w P1 P2))

/-- Unary `operator-` on an interval-refined operand for an integral `T`. -/
def negRefined (w : Nat) (P : Interval) (x : Int) :
    Except RefinementError IntervalResult :=
  (checked_neg w x).map (make_interval_result (.int w) (negate_interval w P))

/-!  The core `Refined<T, Predicate>` wrapper (refined_type.hpp).  The
predicate lives in the type; an instance stores exactly the value. -/

/-- `Refined<T, P>`: a bare value of type `α`, with predicate `P` as a
type parameter (no per-instance bookkeeping). -/
structure Refined (α : Type) (P : α → Bool) where
  val : α
deriving DecidableEq, Repr

/-- Runtime checked construction `Refined(value, runtime_check)`: evaluate
the predicate, throw `refinement_error(value_)` on failure (the C++
default `pred_name` is the string `predicate`; `fmt` models the
formatting of the value into the message). -/
def refineChecked {α : Type} (P : α → Bool) (fmt : α → String) (x : α) :
    Except RefinementError (Refined α P) :=
  if P x then .ok ⟨x⟩ else .error (.violation (fmt x) "predicate")

/-- Trusted construction `Refined(value, assume_valid)`: no evaluation. -/
def refineTrusted {α : Type} (P : α → Bool) (x : α) : Refined α P := ⟨x⟩

/-- `Refined::release()`: consume the wrapper, return the bare value. -/
def Refined.release {α : Type} {P : α → Bool} (r : Refined α P) : α := r.val

/-- `try_refine<Predicate>(value)`: absent result instead of an error. -/
def try_refine {α : Type} (P : α → Bool) (x : α) : Option (Refined α P) :=
  if P x then some ⟨x⟩ else none

/-- `increment` (operations.hpp): attempt `value + 1` and re-validate
against the same predicate via `try_refine`. -/
def increment (P : Int → Bool) (v : Refined Int P) : Option (Refined Int P) :=
  try_refine P (v.val + 1)

/-- `decrement` (operations.hpp): attempt `value - 1` likewise. -/
def decrement (P : Int → Bool) (v : Refined Int P) : Option (Refined Int P) :=
  try_refine P (v.val - 1)

/-- The `NonNegative` predicate (predicates.hpp) at an integer type. -/
def nonNeg : Int → Bool := fun v => v ≥ 0

/-- The `Interval<Lo, Hi>` predicate as a boolean function (its
`operator()`), usable as the predicate of a `Refined`. -/
def intervalPred (P : Interval) : Int → Bool := fun v => P.mem v

/-- `abs` for signed integral `T` (operations.hpp): throws
`refinement_error(value, "abs (negation of minimum value overflows)")`
when `value` is the type's minimum, else wraps the absolute value as
`NonNegative` via `assume_valid`. -/
def abs_signed (w : Nat) (v : Int) : Except RefinementError (Refined Int nonNeg) :=
  if v = tmin w then
    .error (.violation (toString v) "abs (negation of minimum value overflows)")
  else .ok ⟨if v < 0 then -v else v⟩

/-!  Size-predicated containers (refined_container.hpp).  `std::size_t`
is modelled by `Nat` with the domain maximum `szmax`
(`std::numeric_limits<std::size_t>::max()`) passed explicitly; `Nat`
subtraction truncates at zero exactly like the guarded `size_t`
subtractions in the source. -/

/-- `SizeInterval<Lo, Hi>`: closed range on a container's element count. -/
structure SizeInterval where
  lo : Nat
  hi : Nat
deriving DecidableEq, Repr

/-- `size_interval_shift<Pred, Delta>`: shift both bounds by `Delta`,
clamping to `0` on underflow and to `szmax` on overflow. -/
def size_interval_shift (szmax : Nat) (P : SizeInterval) (delta : Int) : SizeInterval :=
  if delta ≥ 0 then
    let d := delta.toNat
    ⟨if P.lo > szmax - d then szmax else P.lo + d,
     if P.hi > szmax - d then szmax else P.hi + d⟩
  else
    let d := (-delta).toNat
    ⟨if P.lo < d then 0 else P.lo - d,
     if P.hi < d then 0 else P.hi - d⟩

/-- `RefinedContainer<Container, SizePredicate>` with a `SizeInterval`
predicate: the size predicate (carried in the C++ type) and the owned
container, modelled as a list. -/
structure RefinedContainer (α : Type) where
  pred : SizeInterval
  xs : List α
deriving DecidableEq, Repr

/-- `RefinedContainer::push_back` (an rvalue method: consumes the wrapper
and returns a new one): append one element, shift the size interval
by `+1`. -/
def push_back {α : Type} (szmax : Nat) (rc : RefinedContainer α) (v : α) :
    RefinedContainer α :=
  ⟨size_interval_shift szmax rc.pred 1, rc.xs ++ [v]⟩

/-- `RefinedContainer::pop_back`: available only when the size lower bound
is statically at least `1` (the C++ requires-clause, here the hypothesis
`h`); remove the last element, shift the size interval by `-1`. -/
def pop_back {α : Type} (szmax : Nat) (rc : RefinedContainer α)
    (_h : 1 ≤ rc.pred.lo) : RefinedContainer α :=
  ⟨size_interval_shift szmax rc.pred (-1), rc.xs.dropLast⟩

/-- `RefinedContainer::append(const std::array<V, N>&)`: append a
compile-time-known batch, shift the size interval by `N`. -/
def appendBatch {α : Type} (szmax : Nat) (rc : RefinedContainer α)
    (ys : List α) : RefinedContainer α :=
  ⟨size_interval_shift szmax rc.pred (ys.length : Int), rc.xs ++ ys⟩

/-- `RefinedContainer::append(RefinedContainer&&)`: append another
size-constrained container; the new bounds are the saturating sums of the
two size intervals (inline in the source, not via `size_interval_shift`). -/
def appendContainer {α : Type} (szmax : Nat) (rc rc2 : RefinedContainer α) :
    RefinedContainer α :=
  ⟨⟨if rc.pred.lo > szmax - rc2.pred.lo then szmax else rc.pred.lo + rc2.pred.lo,
    if rc.pred.hi > szmax - rc2.pred.hi then szmax else rc.pred.hi + rc2.pred.hi⟩,
   rc.xs ++ rc2.xs⟩

/-!  Snapshot guard (refined_container.hpp).  In C++ the brand is a fresh
unforgeable type minted per `freeze()` call site (`template <auto Tag =
[] {}>`); following the spec's port strategy for languages without
per-call-site type synthesis (§9 of the spec), the brand is modelled as a
`Nat` drawn from a monotonically increasing counter, and the static
rejection of a brand-mismatched index is modelled as a dynamic
brand-equality check returning an absent result. -/

/-- `GuardedIndex<Tag>`: an index tagged with its guard's brand; only a
`SizeGuard` mints these. -/
structure GuardedIndex where
  tag : Nat
  index : Nat
deriving DecidableEq, Repr

/-- `SizeGuard<Tag>`: the brand and the captured container length. -/
structure SizeGuard where
  tag : Nat
  size : Nat
deriving DecidableEq, Repr

/-- `SizeGuard::check(idx)`: a validated brand-tagged index when
`idx < size_`, an absent result otherwise (`idx` is a `size_t`, hence
`0 ≤ idx` holds by type). -/
def SizeGuard.check (g : SizeGuard) (idx : Nat) : Option GuardedIndex :=
  if idx < g.size then some ⟨g.tag, idx⟩ else none

/-- `FrozenContainer<Container, SizePredicate, Tag>`: brand plus the
frozen storage. -/
structure FrozenContainer (α : Type) where
  tag : Nat
  xs : List α
deriving DecidableEq, Repr

/-- `FrozenContainer::operator[](GuardedIndex<Tag>)`: accepts only an
index carrying the container's own brand (statically in C++; modelled as
a brand-equality check whose mismatch case is the rejection `none`). -/
def FrozenContainer.getElem {α : Type} (fc : FrozenContainer α)
    (gi : GuardedIndex) : Option α :=
  if gi.tag = fc.tag then fc.xs.get? gi.index else none

/-- `RefinedContainer::freeze()`: capture the container's current length
and mint a brand; returns the guard and the frozen container sharing that
brand. -/
def freeze {α : Type} (brand : Nat) (rc : RefinedContainer α) :
    SizeGuard × FrozenContainer α :=
  (⟨brand, rc.xs.length⟩, ⟨brand, rc.xs⟩)

/-- A `freeze` call drawing its fresh brand from a counter: returns the
guard/frozen pair and the advanced counter (each call site gets a brand
no earlier call produced). -/
def freezeSt {α : Type} (counter : Nat) (rc : RefinedContainer α) :
    (SizeGuard × FrozenContainer α) × Nat :=
  (freeze counter rc, counter + 1)

/-!  Helper lemmas: the saturating operations compute exactly the clamp of
the mathematical result, and the checked operations succeed exactly on
representable results. -/

lemma two_pow_pos (w : Nat) : (0 : Int) < 2 ^ (w - 1) :=
  pow_pos (by norm_num) _

lemma tmin_le_tmax (w : Nat) : tmin w ≤ tmax w := by
  have h := two_pow_pos w
  simp only [tmin, tmax]
  omega

lemma sat_add_eq_clamp (w : Nat) {a b : Int}
    (ha : representable w a) (hb : representable w b) :
    sat_add w a b = clamp w (a + b) := by
  obtain ⟨ha1, ha2⟩ := ha
  obtain ⟨hb1, hb2⟩ := hb
  have h := two_pow_pos w
  simp only [tmin, tmax] at ha1 ha2 hb1 hb2
  simp only [sat_add, clamp, tmin, tmax]
  split_ifs <;> omega

lemma sat_sub_eq_clamp (w : Nat) {a b : Int}
    (ha : representable w a) (hb : representable w b) :
    sat_sub w a b = clamp w (a - b) := by
  obtain ⟨ha1, ha2⟩ := ha
  obtain ⟨hb1, hb2⟩ := hb
  have h := two_pow_pos w
  simp only [tmin, tmax] at ha1 ha2 hb1 hb2
  simp only [sat_sub, clamp, tmin, tmax]
  split_ifs <;> omega

lemma sat_neg_eq_clamp (w : Nat) {a : Int} (ha : representable w a) :
    sat_neg w a = clamp w (-a) := by
  obtain ⟨ha1, ha2⟩ := ha
  have h := two_pow_pos w
  simp only [tmin, tmax] at ha1 ha2
  simp only [sat_neg, clamp, tmin, tmax]
  split_ifs with hc <;> omega

lemma sat_neg_tmin (w : Nat) : sat_neg w (tmin w) = tmax w := by
  simp [sat_neg]

lemma clamp_min_comm (w : Nat) (x y : Int) :
    min (clamp w x) (clamp w y) = clamp w (min x y) := by
  simp only [clamp, tmin, tmax]
  omega

lemma clamp_max_comm (w : Nat) (x y : Int) :
    max (clamp w x) (clamp w y) = clamp w (max x y) := by
  simp only [clamp, tmin, tmax]
  omega

lemma ediv_cond_pos {N b : Int} (a : Int) (hN : 0 ≤ N) (hb : 0 < b) :
    N.tdiv b < a ↔ N < a * b := by
  rw [Int.tdiv_eq_ediv hN hb.le]
  exact Int.ediv_lt_iff_lt_mul hb

lemma ediv_cond_neg_dividend {N a b : Int} (hN : 0 ≤ N) (ha : 0 < a) :
    b < (-N).tdiv a ↔ a * b < -N := by
  rw [Int.neg_tdiv, Int.tdiv_eq_ediv hN ha.le]
  constructor
  · intro h
    have h1 : N / a < -b := by linarith
    have h2 : N < -b * a := (Int.ediv_lt_iff_lt_mul ha).mp h1
    have h3 : -b * a = -(a * b) := by ring
    linarith
  · intro h
    have h3 : -b * a = -(a * b) := by ring
    have h2 : N < -b * a := by linarith
    have h1 : N / a < -b := (Int.ediv_lt_iff_lt_mul ha).mpr h2
    linarith

lemma ediv_cond_neg_divisor {N a b : Int} (hN : 0 ≤ N) (hb : b < 0) :
    a < N.tdiv b ↔ N < a * b := by
  have hc : (0 : Int) < -b := by linarith
  have h1 : N.tdiv b = -(N.tdiv (-b)) := by
    rw [show b = -(-b) from (neg_neg b).symm, Int.tdiv_neg, neg_neg]
  rw [h1, Int.tdiv_eq_ediv hN hc.le]
  constructor
  · intro h
    have h2 : N / (-b) < -a := by linarith
    have h3 : N < -a * -b := (Int.ediv_lt_iff_lt_mul hc).mp h2
    have h4 : -a * -b = a * b := by ring
    linarith
  · intro h
    have h4 : -a * -b = a * b := by ring
    have h3 : N < -a * -b := by linarith
    have h2 : N / (-b) < -a := (Int.ediv_lt_iff_lt_mul hc).mpr h3
    linarith

lemma tmax_nonneg (w : Nat) : (0 : Int) ≤ tmax w := by
  have := two_pow_pos w
  simp only [tmax]
  omega

lemma sat_mul_eq_clamp (w : Nat) {a b : Int}
    (ha : representable w a) (hb : representable w b) :
    sat_mul w a b = clamp w (a * b) := by
  obtain ⟨ha1, ha2⟩ := ha
  obtain ⟨hb1, hb2⟩ := hb
  have hM := two_pow_pos w
  have htm := tmax_nonneg w
  rcases eq_or_ne a 0 with rfl | han
  · rw [sat_mul, if_pos (Or.inl rfl), zero_mul]
    simp only [clamp, tmin, tmax]
    omega
  rcases eq_or_ne b 0 with rfl | hbn
  · rw [sat_mul, if_pos (Or.inr rfl), mul_zero]
    simp only [clamp, tmin, tmax]
    omega
  have hor : ¬(a = 0 ∨ b = 0) := by simp [han, hbn]
  rcases lt_or_gt_of_ne han with haneg | hapos
  · rcases lt_or_gt_of_ne hbn with hbneg | hbpos
    · -- a < 0, b < 0
      rw [sat_mul, if_neg hor, if_neg (by omega), if_neg (by omega)]
      have hcond := ediv_cond_neg_divisor (a := a) htm hbneg
      have hpos : 0 < a * b := mul_pos_of_neg_of_neg haneg hbneg
      split_ifs with h
      · have := hcond.mp h
        set t := a * b with ht
        simp only [clamp, tmin, tmax] at *
        omega
      · have := fun hlt => h (hcond.mpr hlt)
        set t := a * b with ht
        simp only [clamp, tmin, tmax] at *
        omega
    · -- a < 0, b > 0
      rw [sat_mul, if_neg hor, if_neg (by omega), if_pos hbpos]
      have hcond : a < (tmin w).tdiv b ↔ b * a < -(2 ^ (w - 1)) :=
        ediv_cond_neg_dividend (le_of_lt hM) hbpos
      have hneg : a * b < 0 := mul_neg_of_neg_of_pos haneg hbpos
      have hcomm : b * a = a * b := mul_comm b a
      split_ifs with h
      · have h2 := hcond.mp h
        set t := a * b with ht
        simp only [clamp, tmin, tmax] at *
        omega
      · have h2 := fun hlt => h (hcond.mpr hlt)
        set t := a * b with ht
        simp only [clamp, tmin, tmax] at *
        omega
  · rcases lt_or_gt_of_ne hbn with hbneg | hbpos
    · -- a > 0, b < 0
      rw [sat_mul, if_neg hor, if_pos hapos, if_neg (by omega)]
      have hcond : b < (tmin w).tdiv a ↔ a * b < -(2 ^ (w - 1)) :=
        ediv_cond_neg_dividend (le_of_lt hM) hapos
      have hneg : a * b < 0 := mul_neg_of_pos_of_neg hapos hbneg
      split_ifs with h
      · have h2 := hcond.mp h
        set t := a * b with ht
        simp only [clamp, tmin, tmax] at *
        omega
      · have h2 := fun hlt => h (hcond.mpr hlt)
        set t := a * b with ht
        simp only [clamp, tmin, tmax] at *
        omega
    · -- a > 0, b > 0
      rw [sat_mul, if_neg hor, if_pos hapos, if_pos hbpos]
      have hcond := ediv_cond_pos (N := tmax w) a htm hbpos
      have hpos : 0 < a * b := mul_pos hapos hbpos
      split_ifs with h
      · have h2 := hcond.mp h
        set t := a * b with ht
        simp only [clamp, tmin, tmax] at *
        omega
      · have h2 := fun hlt => h (hcond.mpr hlt)
        set t := a * b with ht
        simp only [clamp, tmin, tmax] at *
        omega

lemma checked_add_ok (w : Nat) {a b : Int} (h : representable w (a + b)) :
    checked_add w a b = .ok (a + b) := by
  obtain ⟨h1, h2⟩ := h
  simp only [tmin, tmax] at h1 h2
  simp only [checked_add, tmin, tmax]
  split_ifs with h3 h4
  · exfalso; omega
  · exfalso; omega
  · rfl

lemma checked_add_err (w : Nat) {a b : Int}
    (ha : representable w a) (hb : representable w b)
    (h : ¬ representable w (a + b)) :
    ∃ m, checked_add w a b = .error (.message m) := by
  obtain ⟨ha1, ha2⟩ := ha
  obtain ⟨hb1, hb2⟩ := hb
  simp only [representable, tmin, tmax] at h ha1 ha2 hb1 hb2
  simp only [checked_add, tmin, tmax]
  split_ifs with h3 h4
  · exact ⟨_, rfl⟩
  · exact ⟨_, rfl⟩
  · exfalso; omega

lemma checked_sub_ok (w : Nat) {a b : Int} (h : representable w (a - b)) :
    checked_sub w a b = .ok (a - b) := by
  obtain ⟨h1, h2⟩ := h
  simp only [tmin, tmax] at h1 h2
  simp only [checked_sub, tmin, tmax]
  split_ifs with h3 h4
  · exfalso; omega
  · exfalso; omega
  · rfl

lemma checked_sub_err (w : Nat) {a b : Int}
    (ha : representable w a) (hb : representable w b)
    (h : ¬ representable w (a - b)) :
    ∃ m, checked_sub w a b = .error (.message m) := by
  obtain ⟨ha1, ha2⟩ := ha
  obtain ⟨hb1, hb2⟩ := hb
  simp only [representable, tmin, tmax] at h ha1 ha2 hb1 hb2
  simp only [checked_sub, tmin, tmax]
  split_ifs with h3 h4
  · exact ⟨_, rfl⟩
  · exact ⟨_, rfl⟩
  · exfalso; omega

lemma checked_mul_ok (w : Nat) {a b : Int}
    (ha : representable w a) (hb : representable w b)
    (h : representable w (a * b)) :
    checked_mul w a b = .ok (a * b) := by
  obtain ⟨h1, h2⟩ := h
  have hM := two_pow_pos w
  have htm := tmax_nonneg w
  rcases eq_or_ne a 0 with rfl | han
  · rw [checked_mul, if_pos (Or.inl rfl), zero_mul]
  rcases eq_or_ne b 0 with rfl | hbn
  · rw [checked_mul, if_pos (Or.inr rfl), mul_zero]
  have hor : ¬(a = 0 ∨ b = 0) := by simp [han, hbn]
  rcases lt_or_gt_of_ne han with haneg | hapos
  · rcases lt_or_gt_of_ne hbn with hbneg | hbpos
    · rw [checked_mul, if_neg hor, if_neg (by omega), if_neg (by omega),
        if_neg (by
          rw [ediv_cond_neg_divisor (a := a) htm hbneg]
          set t := a * b with ht
          simp only [tmin, tmax] at *
          omega)]
    · rw [checked_mul, if_neg hor, if_neg (by omega), if_pos hbpos,
        if_neg (by
          have hcond : a < (tmin w).tdiv b ↔ b * a < -(2 ^ (w - 1)) :=
            ediv_cond_neg_dividend (le_of_lt hM) hbpos
          rw [hcond, mul_comm b a]
          set t := a * b with ht
          simp only [tmin, tmax] at *
          omega)]
  · rcases lt_or_gt_of_ne hbn with hbneg | hbpos
    · rw [checked_mul, if_neg hor, if_pos hapos, if_neg (by omega),
        if_neg (by
          have hcond : b < (tmin w).tdiv a ↔ a * b < -(2 ^ (w - 1)) :=
            ediv_cond_neg_dividend (le_of_lt hM) hapos
          rw [hcond]
          set t := a * b with ht
          simp only [tmin, tmax] at *
          omega)]
    · rw [checked_mul, if_neg hor, if_pos hapos, if_pos hbpos,
        if_neg (by
          rw [gt_iff_lt, ediv_cond_pos (N := tmax w) a htm hbpos]
          set t := a * b with ht
          simp only [tmin, tmax] at *
          omega)]

lemma checked_mul_err (w : Nat) {a b : Int}
    (ha : representable w a) (hb : representable w b)
    (h : ¬ representable w (a * b)) :
    ∃ m, checked_mul w a b = .error (.message m) := by
  have hM := two_pow_pos w
  have htm := tmax_nonneg w
  rcases eq_or_ne a 0 with rfl | han
  · exfalso
    apply h
    rw [zero_mul]
    constructor <;> simp only [tmin, tmax] <;> omega
  rcases eq_or_ne b 0 with rfl | hbn
  · exfalso
    apply h
    rw [mul_zero]
    constructor <;> simp only [tmin, tmax] <;> omega
  have hor : ¬(a = 0 ∨ b = 0) := by simp [han, hbn]
  simp only [representable] at h
  rcases lt_or_gt_of_ne han with haneg | hapos
  · rcases lt_or_gt_of_ne hbn with hbneg | hbpos
    · rw [checked_mul, if_neg hor, if_neg (by omega), if_neg (by omega),
        if_pos (by
          rw [ediv_cond_neg_divisor (a := a) htm hbneg]
          have hpos : 0 < a * b := mul_pos_of_neg_of_neg haneg hbneg
          set t := a * b with ht
          simp only [tmin, tmax] at *
          omega)]
      exact ⟨_, rfl⟩
    · rw [checked_mul, if_neg hor, if_neg (by omega), if_pos hbpos,
        if_pos (by
          have hcond : a < (tmin w).tdiv b ↔ b * a < -(2 ^ (w - 1)) :=
            ediv_cond_neg_dividend (le_of_lt hM) hbpos
          rw [hcond, mul_comm b a]
          have hneg : a * b < 0 := mul_neg_of_neg_of_pos haneg hbpos
          set t := a * b with ht
          simp only [tmin, tmax] at *
          omega)]
      exact ⟨_, rfl⟩
  · rcases lt_or_gt_of_ne hbn with hbneg | hbpos
    · rw [checked_mul, if_neg hor, if_pos hapos, if_neg (by omega),
        if_pos (by
          have hcond : b < (tmin w).tdiv a ↔ a * b < -(2 ^ (w - 1)) :=
            ediv_cond_neg_dividend (le_of_lt hM) hapos
          rw [hcond]
          have hneg : a * b < 0 := mul_neg_of_pos_of_neg hapos hbneg
          set t := a * b with ht
          simp only [tmin, tmax] at *
          omega)]
      exact ⟨_, rfl⟩
    · rw [checked_mul, if_neg hor, if_pos hapos, if_pos hbpos,
        if_pos (by
          rw [gt_iff_lt, ediv_cond_pos (N := tmax w) a htm hbpos]
          have hpos : 0 < a * b := mul_pos hapos hbpos
          set t := a * b with ht
          simp only [tmin, tmax] at *
          omega)]
      exact ⟨_, rfl⟩

lemma checked_neg_ok (w : Nat) {a : Int} (h : a ≠ tmin w) :
    checked_neg w a = .ok (-a) := by
  rw [checked_neg, if_neg h]

lemma checked_neg_err (w : Nat) :
    checked_neg w (tmin w) = .error (.message "integer overflow in negation") := by
  rw [checked_neg, if_pos rfl]

lemma neg_representable_iff (w : Nat) {a : Int} (ha : representable w a) :
    representable w (-a) ↔ a ≠ tmin w := by
  obtain ⟨h1, h2⟩ := ha
  have hM := two_pow_pos w
  simp only [representable, tmin, tmax] at *
  omega

lemma make_interval_result_val (d : NumDomain) (P : Interval) (raw : Int) :
    (make_interval_result d P raw).val = raw := by
  rw [make_interval_result]
  split_ifs <;> rfl

lemma make_interval_result_bare (d : NumDomain) (P : Interval) (raw : Int)
    (h : is_trivially_wide d P = true) :
    make_interval_result d P raw = .bare raw := by
  rw [make_interval_result, if_pos h]

lemma make_interval_result_wrapped (d : NumDomain) (P : Interval) (raw : Int)
    (h : is_trivially_wide d P = false) :
    make_interval_result d P raw = .wrapped P raw := by
  rw [make_interval_result]
  simp [h]

lemma is_trivially_wide_int_iff (w : Nat) (hw : 1 ≤ w) (P : Interval)
    (hlo : representable w P.lo) (hhi : representable w P.hi)
    (hle : P.lo ≤ P.hi) :
    is_trivially_wide (.int w) P = true ↔ (tmax w - tmin w) / 2 ≤ P.hi - P.lo := by
  have hM := two_pow_pos w
  have hw2 : (2 : Int) ^ w = 2 ^ (w - 1) * 2 := by
    rw [← pow_succ]
    congr 1
    omega
  obtain ⟨hl1, hl2⟩ := hlo
  obtain ⟨hh1, hh2⟩ := hhi
  simp only [tmin, tmax] at hl1 hl2 hh1 hh2
  have hmod : ((P.hi % ((2 : Int) ^ w)) - (P.lo % ((2 : Int) ^ w))) % ((2 : Int) ^ w)
      = P.hi - P.lo := by
    rw [← Int.sub_emod]
    exact Int.emod_eq_of_lt (by omega) (by omega)
  simp only [is_trivially_wide, decide_eq_true_eq, hmod, tmin, tmax]
  omega

/-!  Claim theorems. -/

/-- C1.  Soundness of interval addition: for integers `a ∈ [A.lo, A.hi]`,
`b ∈ [B.lo, B.hi]` whose sum is representable without overflow, adding the
interval-refined values succeeds and yields a result whose value is
`a + b`, and that value lies within the inferred interval
`add_intervals A B`; concretely (at `w = 32`, C++ `int`), intervals
`[1,3]` and `[2,5]` combine to `[3,8]`, and adding wrapped values `2` and
`4` yields `6` wrapped at `[3,8]`. -/
theorem interval_add_soundness (w : Nat) (A B : Interval) (a b : Int)
    (hAlo : representable w A.lo) (hAhi : representable w A.hi)
    (hBlo : representable w B.lo) (hBhi : representable w B.hi)
    (haA : A.lo ≤ a ∧ a ≤ A.hi) (hbB : B.lo ≤ b ∧ b ≤ B.hi)
    (hfit : representable w (a + b)) :
    (∃ r : IntervalResult, addRefined w A B a b = .ok r ∧ r.val = a + b) ∧
    ((add_intervals w A B).lo ≤ a + b ∧ a + b ≤ (add_intervals w A B).hi) ∧
    add_intervals 32 ⟨1, 3⟩ ⟨2, 5⟩ = ⟨3, 8⟩ ∧
    addRefined 32 ⟨1, 3⟩ ⟨2, 5⟩ 2 4 = .ok (.wrapped ⟨3, 8⟩ 6) := by
  refine ⟨?_, ?_, by decide, by decide⟩
  · rw [addRefined, checked_add_ok w hfit]
    exact ⟨_, rfl, make_interval_result_val _ _ _⟩
  · obtain ⟨hfit1, hfit2⟩ := hfit
    obtain ⟨ha1, ha2⟩ := haA
    obtain ⟨hb1, hb2⟩ := hbB
    have hM := two_pow_pos w
    constructor
    · show sat_add w A.lo B.lo ≤ a + b
      rw [sat_add_eq_clamp w hAlo hBlo]
      simp only [clamp, tmin, tmax] at *
      omega
    · show a + b ≤ sat_add w A.hi B.hi
      rw [sat_add_eq_clamp w hAhi hBhi]
      simp only [clamp, tmin, tmax] at *
      omega

/-- C1 witness: the universal part applied at `w = 32`, `A = [1,3]`,
`B = [2,5]`, `a = 2`, `b = 4`. -/
theorem interval_add_soundness_witness :
    (∃ r : IntervalResult, addRefined 32 ⟨1, 3⟩ ⟨2, 5⟩ 2 4 = .ok r ∧ r.val = 2 + 4) ∧
    (((add_intervals 32 ⟨1, 3⟩ ⟨2, 5⟩).lo ≤ 2 + 4 ∧
      (2 : Int) + 4 ≤ (add_intervals 32 ⟨1, 3⟩ ⟨2, 5⟩).hi)) ∧
    add_intervals 32 ⟨1, 3⟩ ⟨2, 5⟩ = ⟨3, 8⟩ ∧
    addRefined 32 ⟨1, 3⟩ ⟨2, 5⟩ 2 4 = .ok (.wrapped ⟨3, 8⟩ 6) :=
  interval_add_soundness 32 ⟨1, 3⟩ ⟨2, 5⟩ 2 4 (by decide) (by decide)
    (by decide) (by decide) (by decide) (by decide) (by decide)

/-- C2.  Bound inference computes the spec's formulas on every pair of
operand intervals, with saturating arithmetic clamped to the domain's
representable extremes (`clamp`): `add → [a_lo+b_lo, a_hi+b_hi]`,
`sub → [a_lo-b_hi, a_hi-b_lo]`, `mul →` min/max of the four cross
products, `negate [lo,hi] → [-hi,-lo]`; bound inference is a total
function (never fails), and negating the domain's most-negative integer
saturates to the most-positive value. -/
theorem bound_inference_saturating (w : Nat) (A B : Interval)
    (hAlo : representable w A.lo) (hAhi : representable w A.hi)
    (hBlo : representable w B.lo) (hBhi : representable w B.hi) :
    add_intervals w A B = ⟨clamp w (A.lo + B.lo), clamp w (A.hi + B.hi)⟩ ∧
    sub_intervals w A B = ⟨clamp w (A.lo - B.hi), clamp w (A.hi - B.lo)⟩ ∧
    mul_intervals w A B =
      ⟨clamp w (min (min (A.lo * B.lo) (A.lo * B.hi)) (min (A.hi * B.lo) (A.hi * B.hi))),
       clamp w (max (max (A.lo * B.lo) (A.lo * B.hi)) (max (A.hi * B.lo) (A.hi * B.hi)))⟩ ∧
    negate_interval w A = ⟨clamp w (-A.hi), clamp w (-A.lo)⟩ ∧
    sat_neg w (tmin w) = tmax w := by
  refine ⟨?_, ?_, ?_, ?_, sat_neg_tmin w⟩
  · rw [add_intervals, sat_add_eq_clamp w hAlo hBlo, sat_add_eq_clamp w hAhi hBhi]
  · rw [sub_intervals, sat_sub_eq_clamp w hAlo hBhi, sat_sub_eq_clamp w hAhi hBlo]
  · show Interval.mk _ _ = _
    rw [sat_mul_eq_clamp w hAlo hBlo, sat_mul_eq_clamp w hAlo hBhi,
      sat_mul_eq_clamp w hAhi hBlo, sat_mul_eq_clamp w hAhi hBhi]
    rw [clamp_min_comm, clamp_min_comm, clamp_min_comm,
      clamp_max_comm, clamp_max_comm, clamp_max_comm]
  · rw [negate_interval, sat_neg_eq_clamp w hAhi, sat_neg_eq_clamp w hAlo]

/-- C2 witness: applied at `w = 8`, `A = [-2, 3]`, `B = [-1, 4]`
(the spec's sign-changing multiplication example). -/
theorem bound_inference_saturating_witness :
    add_intervals 8 ⟨-2, 3⟩ ⟨-1, 4⟩ = ⟨clamp 8 (-2 + -1), clamp 8 (3 + 4)⟩ ∧
    sub_intervals 8 ⟨-2, 3⟩ ⟨-1, 4⟩ = ⟨clamp 8 (-2 - 4), clamp 8 (3 - -1)⟩ ∧
    mul_intervals 8 ⟨-2, 3⟩ ⟨-1, 4⟩ =
      ⟨clamp 8 (min (min ((-2) * -1) ((-2) * 4)) (min (3 * -1) (3 * 4))),
       clamp 8 (max (max ((-2) * -1) ((-2) * 4)) (max (3 * -1) (3 * 4)))⟩ ∧
    negate_interval 8 ⟨-2, 3⟩ = ⟨clamp 8 (-3), clamp 8 (-(-2))⟩ ∧
    sat_neg 8 (tmin 8) = tmax 8 :=
  bound_inference_saturating 8 ⟨-2, 3⟩ ⟨-1, 4⟩ (by decide) (by decide)
    (by decide) (by decide)

/-- C3.  For integer domains every value-level arithmetic operator on
interval-refined operands uses checked arithmetic: it succeeds with the
true mathematical result exactly when that result is representable, and
otherwise signals an arithmetic-overflow error — for any operand
intervals, so independently of whether the inferred bound would have fit.
The overflow error is raised through `refinement_error`'s string
constructor (`RefinementError.message`), distinct from the
`RefinementError.violation` form that `Checked` construction raises on a
predicate failure. -/
theorem checked_value_arithmetic (w : Nat) (P1 P2 : Interval) (x y : Int)
    (hx : representable w x) (hy : representable w y) :
    ((∃ r, addRefined w P1 P2 x y = .ok r ∧ r.val = x + y) ↔ representable w (x + y)) ∧
    (¬ representable w (x + y) → ∃ m, addRefined w P1 P2 x y = .error (.message m)) ∧
    ((∃ r, subRefined w P1 P2 x y = .ok r ∧ r.val = x - y) ↔ representable w (x - y)) ∧
    (¬ representable w (x - y) → ∃ m, subRefined w P1 P2 x y = .error (.message m)) ∧
    ((∃ r, mulRefined w P1 P2 x y = .ok r ∧ r.val = x * y) ↔ representable w (x * y)) ∧
    (¬ representable w (x * y) → ∃ m, mulRefined w P1 P2 x y = .error (.message m)) ∧
    ((∃ r, negRefined w P1 x = .ok r ∧ r.val = -x) ↔ representable w (-x)) ∧
    (¬ representable w (-x) → ∃ m, negRefined w P1 x = .error (.message m)) ∧
    (∀ (p : Int → Bool) (fmt : Int → String) (v : Int), p v = false →
      refineChecked p fmt v = .error (.violation (fmt v) "predicate")) ∧
    (∀ m d n, (RefinementError.message m) ≠ .violation d n) := by
  have hM := two_pow_pos w
  refine ⟨?_, ?_, ?_, ?_, ?_, ?_, ?_, ?_, ?_, ?_⟩
  · constructor
    · rintro ⟨r, hr, hv⟩
      by_contra hrep
      obtain ⟨m, hm⟩ := checked_add_err w hx hy hrep
      rw [addRefined, hm] at hr
      simp [Except.map] at hr
    · intro hrep
      rw [addRefined, checked_add_ok w hrep]
      exact ⟨_, rfl, make_interval_result_val _ _ _⟩
  · intro hrep
    obtain ⟨m, hm⟩ := checked_add_err w hx hy hrep
    rw [addRefined, hm]
    exact ⟨m, rfl⟩
  · constructor
    · rintro ⟨r, hr, hv⟩
      by_contra hrep
      obtain ⟨m, hm⟩ := checked_sub_err w hx hy hrep
      rw [subRefined, hm] at hr
      simp [Except.map] at hr
    · intro hrep
      rw [subRefined, checked_sub_ok w hrep]
      exact ⟨_, rfl, make_interval_result_val _ _ _⟩
  · intro hrep
    obtain ⟨m, hm⟩ := checked_sub_err w hx hy hrep
    rw [subRefined, hm]
    exact ⟨m, rfl⟩
  · constructor
    · rintro ⟨r, hr, hv⟩
      by_contra hrep
      obtain ⟨m, hm⟩ := checked_mul_err w hx hy hrep
      rw [mulRefined, hm] at hr
      simp [Except.map] at hr
    · intro hrep
      rw [mulRefined, checked_mul_ok w hx hy hrep]
      exact ⟨_, rfl, make_interval_result_val _ _ _⟩
  · intro hrep
    obtain ⟨m, hm⟩ := checked_mul_err w hx hy hrep
    rw [mulRefined, hm]
    exact ⟨m, rfl⟩
  · constructor
    · rintro ⟨r, hr, hv⟩
      by_contra hrep
      have hmin : x = tmin w := by
        by_contra hne
        exact hrep ((neg_representable_iff w hx).mpr hne)
      rw [negRefined, hmin, checked_neg_err w] at hr
      simp [Except.map] at hr
    · intro hrep
      have hne : x ≠ tmin w := (neg_representable_iff w hx).mp hrep
      rw [negRefined, checked_neg_ok w hne]
      exact ⟨_, rfl, make_interval_result_val _ _ _⟩
  · intro hrep
    have hmin : x = tmin w := by
      by_contra hne
      exact hrep ((neg_representable_iff w hx).mpr hne)
    rw [negRefined, hmin, checked_neg_err w]
    exact ⟨_, rfl⟩
  · intro p fmt v hp
    rw [refineChecked, if_neg (by simp [hp])]
  · intro m d n
    simp

/-- C3 witness: applied at `w = 32`, intervals `[0,10]`, values `5`
and `5`. -/
theorem checked_value_arithmetic_witness :
    ((∃ r, addRefined 32 ⟨0, 10⟩ ⟨0, 10⟩ 5 5 = .ok r ∧ r.val = 5 + 5) ↔
      representable 32 (5 + 5)) ∧
    (¬ representable 32 (5 + 5) →
      ∃ m, addRefined 32 ⟨0, 10⟩ ⟨0, 10⟩ 5 5 = .error (.message m)) ∧
    ((∃ r, subRefined 32 ⟨0, 10⟩ ⟨0, 10⟩ 5 5 = .ok r ∧ r.val = 5 - 5) ↔
      representable 32 (5 - 5)) ∧
    (¬ representable 32 (5 - 5) →
      ∃ m, subRefined 32 ⟨0, 10⟩ ⟨0, 10⟩ 5 5 = .error (.message m)) ∧
    ((∃ r, mulRefined 32 ⟨0, 10⟩ ⟨0, 10⟩ 5 5 = .ok r ∧ r.val = 5 * 5) ↔
      representable 32 (5 * 5)) ∧
    (¬ representable 32 (5 * 5) →
      ∃ m, mulRefined 32 ⟨0, 10⟩ ⟨0, 10⟩ 5 5 = .error (.message m)) ∧
    ((∃ r, negRefined 32 ⟨0, 10⟩ 5 = .ok r ∧ r.val = -5) ↔ representable 32 (-5)) ∧
    (¬ representable 32 (-5) → ∃ m, negRefined 32 ⟨0, 10⟩ 5 = .error (.message m)) ∧
    (∀ (p : Int → Bool) (fmt : Int → String) (v : Int), p v = false →
      refineChecked p fmt v = .error (.violation (fmt v) "predicate")) ∧
    (∀ m d n, (RefinementError.message m) ≠ .violation d n) :=
  checked_value_arithmetic 32 ⟨0, 10⟩ ⟨0, 10⟩ 5 5 (by decide) (by decide)

/-- C4.  Degrade-to-unconstrained: an inferred integer result interval
whose width is at least half the representable range of the type (integer
halving of `tmax - tmin`, which equals the source's threshold
`numeric_limits<T>::max()`) makes the operation return the bare numeric
value; below the threshold the result is wrapped with the inferred
interval; floating-point results never degrade. -/
theorem degrade_to_unconstrained (w : Nat) (hw : 1 ≤ w) (P : Interval)
    (hlo : representable w P.lo) (hhi : representable w P.hi)
    (hle : P.lo ≤ P.hi) (raw : Int) :
    (is_trivially_wide (.int w) P = true ↔ (tmax w - tmin w) / 2 ≤ P.hi - P.lo) ∧
    ((tmax w - tmin w) / 2 ≤ P.hi - P.lo →
      make_interval_result (.int w) P raw = .bare raw) ∧
    (P.hi - P.lo < (tmax w - tmin w) / 2 →
      make_interval_result (.int w) P raw = .wrapped P raw) ∧
    (∀ (Q : Interval) (r : Int), make_interval_result .float Q r = .wrapped Q r) := by
  have hiff := is_trivially_wide_int_iff w hw P hlo hhi hle
  refine ⟨hiff, ?_, ?_, fun Q r => rfl⟩
  · intro h
    exact make_interval_result_bare _ _ _ (hiff.mpr h)
  · intro h
    refine make_interval_result_wrapped _ _ _ ?_
    rw [Bool.eq_false_iff]
    intro ht
    have := hiff.mp ht
    omega

/-- C4 witness: applied at `w = 32` to the full-range interval
`[-2^31, 2^31 - 1]` (degrades to bare). -/
theorem degrade_to_unconstrained_witness :
    (is_trivially_wide (.int 32) ⟨-(2 ^ 31), 2 ^ 31 - 1⟩ = true ↔
      (tmax 32 - tmin 32) / 2 ≤ (Interval.mk (-(2 ^ 31)) (2 ^ 31 - 1)).hi
        - (Interval.mk (-(2 ^ 31)) (2 ^ 31 - 1)).lo) ∧
    ((tmax 32 - tmin 32) / 2 ≤ (Interval.mk (-(2 ^ 31)) (2 ^ 31 - 1)).hi
        - (Interval.mk (-(2 ^ 31)) (2 ^ 31 - 1)).lo →
      make_interval_result (.int 32) ⟨-(2 ^ 31), 2 ^ 31 - 1⟩ 7 = .bare 7) ∧
    ((Interval.mk (-(2 ^ 31)) (2 ^ 31 - 1)).hi - (Interval.mk (-(2 ^ 31)) (2 ^ 31 - 1)).lo
        < (tmax 32 - tmin 32) / 2 →
      make_interval_result (.int 32) ⟨-(2 ^ 31), 2 ^ 31 - 1⟩ 7 =
        .wrapped ⟨-(2 ^ 31), 2 ^ 31 - 1⟩ 7) ∧
    (∀ (Q : Interval) (r : Int), make_interval_result .float Q r = .wrapped Q r) :=
  degrade_to_unconstrained 32 (by decide) ⟨-(2 ^ 31), 2 ^ 31 - 1⟩ (by decide)
    (by decide) (by decide) 7

/-- C5.  Container mutation bound shift: each size-changing operation
returns a wrapper whose size interval is shifted by the operation's exact
delta — `push_back` shifts `[lo,hi]` to `[lo+1,hi+1]` saturating at the
`size_t` maximum, `pop_back` requires `lo ≥ 1` and shifts to
`[lo-1,hi-1]` saturating at zero (`Nat` subtraction), an `N`-element
batch append shifts by `N`, and appending another size-constrained
container with interval `[lo2,hi2]` yields `[lo+lo2, hi+hi2]`
saturating.  Concretely (at `szmax = 2^64 - 1`): `[3,10]` after one
append is `[4,11]`, after a subsequent remove-last is back at `[3,10]`,
and `[2,4]` after a 3-element batch append is `[5,7]`. -/
theorem container_mutation_shift (szmax : Nat) {α : Type}
    (rc rc2 : RefinedContainer α) (v : α) (ys : List α)
    (hsz : 1 ≤ szmax) (hys : ys.length ≤ szmax)
    (h2lo : rc2.pred.lo ≤ szmax) (h2hi : rc2.pred.hi ≤ szmax) :
    (push_back szmax rc v).pred =
      ⟨min szmax (rc.pred.lo + 1), min szmax (rc.pred.hi + 1)⟩ ∧
    (∀ h : 1 ≤ rc.pred.lo,
      (pop_back szmax rc h).pred = ⟨rc.pred.lo - 1, rc.pred.hi - 1⟩) ∧
    (appendBatch szmax rc ys).pred =
      ⟨min szmax (rc.pred.lo + ys.length), min szmax (rc.pred.hi + ys.length)⟩ ∧
    (appendContainer szmax rc rc2).pred =
      ⟨min szmax (rc.pred.lo + rc2.pred.lo), min szmax (rc.pred.hi + rc2.pred.hi)⟩ ∧
    (push_back (2 ^ 64 - 1) (⟨⟨3, 10⟩, [(), (), ()]⟩ : RefinedContainer Unit) ()).pred
      = ⟨4, 11⟩ ∧
    (pop_back (2 ^ 64 - 1)
      (push_back (2 ^ 64 - 1) (⟨⟨3, 10⟩, [(), (), ()]⟩ : RefinedContainer Unit) ())
      (by decide)).pred = ⟨3, 10⟩ ∧
    (appendBatch (2 ^ 64 - 1) (⟨⟨2, 4⟩, [(), ()]⟩ : RefinedContainer Unit)
      [(), (), ()]).pred = ⟨5, 7⟩ := by
  refine ⟨?_, ?_, ?_, ?_, by decide, by decide, by decide⟩
  · simp only [push_back, size_interval_shift, SizeInterval.mk.injEq]
    norm_num
    constructor <;> (try split_ifs) <;> omega
  · intro h
    simp only [pop_back, size_interval_shift, SizeInterval.mk.injEq]
    norm_num
    constructor <;> (try split_ifs) <;> omega
  · simp only [appendBatch, size_interval_shift, SizeInterval.mk.injEq]
    norm_num
    constructor <;> (try split_ifs) <;> omega
  · simp only [appendContainer, SizeInterval.mk.injEq]
    constructor <;> (try split_ifs) <;> omega

/-- C5 witness: applied at `szmax = 2^64 - 1` with a `[3,10]`-constrained
container, a unit element, a 3-element batch and a `[2,4]`-constrained
source container. -/
theorem container_mutation_shift_witness :
    (push_back (2 ^ 64 - 1) (⟨⟨3, 10⟩, [(), (), ()]⟩ : RefinedContainer Unit) ()).pred =
      ⟨min (2 ^ 64 - 1) (3 + 1), min (2 ^ 64 - 1) (10 + 1)⟩ ∧
    (∀ h : 1 ≤ (RefinedContainer.mk (α := Unit) ⟨3, 10⟩ [(), (), ()]).pred.lo,
      (pop_back (2 ^ 64 - 1) ⟨⟨3, 10⟩, [(), (), ()]⟩ h).pred = ⟨3 - 1, 10 - 1⟩) ∧
    (appendBatch (2 ^ 64 - 1) (⟨⟨3, 10⟩, [(), (), ()]⟩ : RefinedContainer Unit)
      [(), (), ()]).pred = ⟨min (2 ^ 64 - 1) (3 + 3), min (2 ^ 64 - 1) (10 + 3)⟩ ∧
    (appendContainer (2 ^ 64 - 1) (⟨⟨3, 10⟩, [(), (), ()]⟩ : RefinedContainer Unit)
      ⟨⟨2, 4⟩, [(), ()]⟩).pred = ⟨min (2 ^ 64 - 1) (3 + 2), min (2 ^ 64 - 1) (10 + 4)⟩ ∧
    (push_back (2 ^ 64 - 1) (⟨⟨3, 10⟩, [(), (), ()]⟩ : RefinedContainer Unit) ()).pred
      = ⟨4, 11⟩ ∧
    (pop_back (2 ^ 64 - 1)
      (push_back (2 ^ 64 - 1) (⟨⟨3, 10⟩, [(), (), ()]⟩ : RefinedContainer Unit) ())
      (by decide)).pred = ⟨3, 10⟩ ∧
    (appendBatch (2 ^ 64 - 1) (⟨⟨2, 4⟩, [(), ()]⟩ : RefinedContainer Unit)
      [(), (), ()]).pred = ⟨5, 7⟩ :=
  container_mutation_shift (2 ^ 64 - 1) ⟨⟨3, 10⟩, [(), (), ()]⟩ ⟨⟨2, 4⟩, [(), ()]⟩
    () [(), (), ()] (by decide) (by decide) (by decide) (by decide)

/-- C6.  For every guard produced by freezing a container and every index
`i`, `check i` returns the validated brand-tagged index (preserving the
value `i`) exactly when `i < captured_length`, where the captured length
is the container's concrete length at the moment of the freeze, and
returns an absent result otherwise (`i` is a `size_t`, so `0 ≤ i` holds
by type). -/
theorem guard_check_bounds {α : Type} (rc : RefinedContainer α) (brand i : Nat) :
    ((freeze brand rc).1.check i = some ⟨brand, i⟩ ↔ i < rc.xs.length) ∧
    (rc.xs.length ≤ i → (freeze brand rc).1.check i = none) ∧
    (∀ gi, (freeze brand rc).1.check i = some gi → gi = ⟨brand, i⟩) ∧
    (freeze brand rc).1.size = rc.xs.length := by
  refine ⟨?_, ?_, ?_, rfl⟩
  · show (if i < rc.xs.length then some (GuardedIndex.mk brand i) else none)
      = some ⟨brand, i⟩ ↔ i < rc.xs.length
    split_ifs with h <;> simp [h]
  · intro h
    show (if i < rc.xs.length then some (GuardedIndex.mk brand i) else none) = none
    rw [if_neg (by omega)]
  · intro gi hgi
    rw [show (freeze brand rc).1.check i
        = (if i < rc.xs.length then some (GuardedIndex.mk brand i) else none) from rfl]
      at hgi
    by_cases h : i < rc.xs.length
    · rw [if_pos h] at hgi
      exact (Option.some.inj hgi).symm
    · rw [if_neg h] at hgi
      exact absurd hgi (by simp)

/-- C6 witness: a 3-element container frozen with brand `0`, checked at
`i = 2`. -/
theorem guard_check_bounds_witness :
    ((freeze 0 (⟨⟨1, 5⟩, [10, 20, 30]⟩ : RefinedContainer Nat)).1.check 2 = some ⟨0, 2⟩ ↔
      2 < ([10, 20, 30] : List Nat).length) ∧
    (([10, 20, 30] : List Nat).length ≤ 2 →
      (freeze 0 (⟨⟨1, 5⟩, [10, 20, 30]⟩ : RefinedContainer Nat)).1.check 2 = none) ∧
    (∀ gi, (freeze 0 (⟨⟨1, 5⟩, [10, 20, 30]⟩ : RefinedContainer Nat)).1.check 2 = some gi →
      gi = ⟨0, 2⟩) ∧
    (freeze 0 (⟨⟨1, 5⟩, [10, 20, 30]⟩ : RefinedContainer Nat)).1.size =
      ([10, 20, 30] : List Nat).length :=
  guard_check_bounds ⟨⟨1, 5⟩, [10, 20, 30]⟩ 0 2

/-- C7.  Brand isolation: freezing two independently constructed
containers (brands drawn from the counter model of the per-call-site
C++ tag) yields guards with distinct brands, and a validated index minted
by guard A is rejected by frozen container B whose brand differs, even
when the index value is in range for B; in general any brand-mismatched
index is rejected. -/
theorem brand_isolation {α : Type} (rcA rcB : RefinedContainer α) (n i : Nat)
    (hin : i < rcB.xs.length) :
    ((freezeSt n rcA).1.1.tag ≠ (freezeSt (freezeSt n rcA).2 rcB).1.1.tag) ∧
    (∀ gi, (freezeSt n rcA).1.1.check i = some gi →
      (freezeSt (freezeSt n rcA).2 rcB).1.2.getElem gi = none) ∧
    (∀ (gi : GuardedIndex) (fc : FrozenContainer α),
      gi.tag ≠ fc.tag → fc.getElem gi = none) := by
  refine ⟨by simp [freezeSt, freeze], ?_, ?_⟩
  · intro gi hgi
    have htag : gi.tag = n := by
      rw [show (freezeSt n rcA).1.1.check i
          = (if i < rcA.xs.length then some (GuardedIndex.mk n i) else none) from rfl]
        at hgi
      by_cases h : i < rcA.xs.length
      · rw [if_pos h] at hgi
        rw [← Option.some.inj hgi]
      · rw [if_neg h] at hgi
        exact absurd hgi (by simp)
    show (if gi.tag = n + 1 then _ else none) = none
    rw [if_neg (by omega)]
  · intro gi fc hne
    rw [FrozenContainer.getElem, if_neg hne]

/-- C7 witness: two singleton containers frozen from counter `0`, index
`0` (in range for B). -/
theorem brand_isolation_witness :
    ((freezeSt 0 (⟨⟨1, 1⟩, [5]⟩ : RefinedContainer Nat)).1.1.tag ≠
      (freezeSt (freezeSt 0 (⟨⟨1, 1⟩, [5]⟩ : RefinedContainer Nat)).2
        (⟨⟨1, 1⟩, [7]⟩ : RefinedContainer Nat)).1.1.tag) ∧
    (∀ gi, (freezeSt 0 (⟨⟨1, 1⟩, [5]⟩ : RefinedContainer Nat)).1.1.check 0 = some gi →
      (freezeSt (freezeSt 0 (⟨⟨1, 1⟩, [5]⟩ : RefinedContainer Nat)).2
        (⟨⟨1, 1⟩, [7]⟩ : RefinedContainer Nat)).1.2.getElem gi = none) ∧
    (∀ (gi : GuardedIndex) (fc : FrozenContainer Nat),
      gi.tag ≠ fc.tag → fc.getElem gi = none) :=
  brand_isolation ⟨⟨1, 1⟩, [5]⟩ ⟨⟨1, 1⟩, [7]⟩ 0 0 (by decide)

/-- C8.  Round-trip: when the predicate holds for `x`, `Checked`
construction raises no error and releasing the wrapper returns exactly
`x`, and releasing a `Trusted`-constructed wrapper of `x` returns
exactly `x`. -/
theorem round_trip {α : Type} (P : α → Bool) (fmt : α → String) (x : α)
    (h : P x = true) :
    (∃ r : Refined α P, refineChecked P fmt x = .ok r ∧ r.release = x) ∧
    (refineTrusted P x).release = x := by
  refine ⟨⟨⟨x⟩, ?_, rfl⟩, rfl⟩
  rw [refineChecked, if_pos h]

/-- C8 witness: the `NonNegative` predicate at `x = 3`. -/
theorem round_trip_witness :
    (∃ r : Refined Int nonNeg, refineChecked nonNeg toString 3 = .ok r ∧ r.release = 3) ∧
    (refineTrusted nonNeg 3).release = 3 :=
  round_trip nonNeg toString 3 (by decide)

/-- C9.  `increment` and `decrement` on a same-predicate refined value
attempt `value ± 1` and re-validate the result against the same
predicate: they return a wrapper of the new value when the predicate
holds for it and an absent result on failure, including at a domain
boundary (concretely, at the `[0,100]` interval predicate, incrementing
`100` and decrementing `0` are absent). -/
theorem increment_decrement_revalidate (P : Int → Bool) (v : Refined Int P) :
    (P (v.val + 1) = true → increment P v = some ⟨v.val + 1⟩) ∧
    (P (v.val + 1) = false → increment P v = none) ∧
    (P (v.val - 1) = true → decrement P v = some ⟨v.val - 1⟩) ∧
    (P (v.val - 1) = false → decrement P v = none) ∧
    increment (intervalPred ⟨0, 100⟩) ⟨100⟩ = none ∧
    increment (intervalPred ⟨0, 100⟩) ⟨99⟩ = some ⟨100⟩ ∧
    decrement (intervalPred ⟨0, 100⟩) ⟨0⟩ = none := by
  refine ⟨?_, ?_, ?_, ?_, by decide, by decide, by decide⟩
  · intro h
    rw [increment, try_refine, if_pos h]
  · intro h
    rw [increment, try_refine, if_neg (by simp [h])]
  · intro h
    rw [decrement, try_refine, if_pos h]
  · intro h
    rw [decrement, try_refine, if_neg (by simp [h])]

/-- C9 witness: the `[0,100]` interval predicate at value `50`. -/
theorem increment_decrement_revalidate_witness :
    (intervalPred ⟨0, 100⟩ ((50 : Int) + 1) = true →
      increment (intervalPred ⟨0, 100⟩) ⟨50⟩ = some ⟨50 + 1⟩) ∧
    (intervalPred ⟨0, 100⟩ ((50 : Int) + 1) = false →
      increment (intervalPred ⟨0, 100⟩) ⟨50⟩ = none) ∧
    (intervalPred ⟨0, 100⟩ ((50 : Int) - 1) = true →
      decrement (intervalPred ⟨0, 100⟩) ⟨50⟩ = some ⟨50 - 1⟩) ∧
    (intervalPred ⟨0, 100⟩ ((50 : Int) - 1) = false →
      decrement (intervalPred ⟨0, 100⟩) ⟨50⟩ = none) ∧
    increment (intervalPred ⟨0, 100⟩) ⟨100⟩ = none ∧
    increment (intervalPred ⟨0, 100⟩) ⟨99⟩ = some ⟨100⟩ ∧
    decrement (intervalPred ⟨0, 100⟩) ⟨0⟩ = none :=
  increment_decrement_revalidate (intervalPred ⟨0, 100⟩) ⟨50⟩

/-- C10.  `abs` on a signed integral value throws a refinement error
exactly when the value is the type's minimum (whose negation would
overflow); for every other representable value it returns a
`NonNegative`-refined value whose underlying value is the absolute
value. -/
theorem abs_signed_spec (w : Nat) (v : Int) (hv : representable w v) :
    ((∃ e, abs_signed w v = .error e) ↔ v = tmin w) ∧
    (v = tmin w → abs_signed w v
      = .error (.violation (toString v) "abs (negation of minimum value overflows)")) ∧
    (v ≠ tmin w →
      abs_signed w v = .ok ⟨|v|⟩ ∧ nonNeg |v| = true ∧ representable w |v|) := by
  obtain ⟨hv1, hv2⟩ := hv
  refine ⟨⟨?_, ?_⟩, ?_, ?_⟩
  · rintro ⟨e, he⟩
    by_contra hne
    rw [abs_signed, if_neg hne] at he
    exact absurd he (by simp)
  · intro h
    rw [abs_signed, if_pos h]
    exact ⟨_, rfl⟩
  · intro h
    rw [abs_signed, if_pos h]
  · intro hne
    refine ⟨?_, by simp [nonNeg, abs_nonneg], ?_⟩
    · rw [abs_signed, if_neg hne]
      congr 1
      rcases lt_or_le v 0 with h | h
      · rw [if_pos h, abs_of_neg h]
      · rw [if_neg (not_lt.mpr h), abs_of_nonneg h]
    · have hM := two_pow_pos w
      simp only [tmin] at hne
      simp only [representable, tmin, tmax] at *
      rcases lt_or_le v 0 with h | h
      · rw [abs_of_neg h]
        omega
      · rw [abs_of_nonneg h]
        omega

/-- C10 witness: applied at `w = 32`, `v = -5`. -/
theorem abs_signed_spec_witness :
    ((∃ e, abs_signed 32 (-5) = .error e) ↔ (-5 : Int) = tmin 32) ∧
    ((-5 : Int) = tmin 32 → abs_signed 32 (-5)
      = .error (.violation (toString (-5 : Int))
          "abs (negation of minimum value overflows)")) ∧
    ((-5 : Int) ≠ tmin 32 →
      abs_signed 32 (-5) = .ok ⟨|(-5 : Int)|⟩ ∧ nonNeg |(-5 : Int)| = true ∧
        representable 32 |(-5 : Int)|) :=
  abs_signed_spec 32 (-5) (by decide)

end Refinery
